import Mathlib

/-!
Shallow embedding of `templates/manage_certs.py` (certificate management for an
haproxy load-balancing server) together with proofs about the claims of its
specification.

Modelling conventions:
* Python strings are modelled as `List Char` (`Str` below); Python byte strings
  for certificate labels are modelled the same way.
* Network and process effects are modelled by explicit oracles: DNS resolution
  (`socket.gethostbyname`) is a function `Str → Option Str` (`none` models
  `socket.gaierror`), and the TLS connection attempt in `has_valid_cert` is a
  value of `ConnectResult` describing how `conn.connect(("localhost", 443))`
  behaved for the given server name.
* Python exceptions are modelled by the `PyExc` type and fallible code returns
  `Except PyExc _`.  An uncaught exception is an `Except.error` result.
* The filesystem seen by `clean_up_certs` is modelled as the list of `*.pem`
  files produced by the directory glob, each with its stem and parsed content
  (`none` when `read_bytes`/`load_certificate` raises).  The filesystem seen by
  `remove_cert` is modelled separately, as the finite set of existing regular
  files (`Finset PPath`), to state its frame conditions.
-/

deriving instance DecidableEq for Except

namespace ManageCerts

/-- Python strings, modelled as lists of characters. -/
abbrev Str := List Char

/-- The Python exceptions that the script can raise or catch.
`ioError` models `OSError` from `open`, `valueError` models `ValueError`
(tuple-unpacking failures and the explicit `raise` in `get_dns_names`),
`keyError` models a dictionary `KeyError`, `opensslError` models the exception
raised by `OpenSSL.crypto.load_certificate`/`Path.read_bytes` on an unreadable
or malformed certificate file, and `osError` models non-SSL `OSError`s such as
`ConnectionRefusedError` from `socket.connect` or a filesystem error from
`Path.unlink`/`Path.rename`. -/
inductive PyExc where
  | ioError
  | valueError
  | keyError
  | opensslError
  | osError
deriving DecidableEq

/-- Characters treated as whitespace by Python's `str.strip()` and
`str.split(None)` (the ASCII whitespace class; exotic Unicode whitespace is not
modelled). -/
def pyIsSpace (c : Char) : Bool :=
  c == ' ' || c == '\t' || c == '\n' || c == '\r' || c == '\x0b' || c == '\x0c'

/-- Python `s.strip()`: remove leading and trailing whitespace. -/
def strip (s : Str) : Str :=
  ((s.dropWhile pyIsSpace).reverse.dropWhile pyIsSpace).reverse

/-- Python `s.split(None, 1)`: skip leading whitespace, split off the first
whitespace-delimited token, and return the remainder (with its own leading
whitespace removed) as the second element when it is nonempty. -/
def splitNone1 (s : Str) : List Str :=
  let s1 := s.dropWhile pyIsSpace
  if s1 = [] then []
  else
    let tok := s1.takeWhile (fun c => !pyIsSpace c)
    let rest := (s1.dropWhile (fun c => !pyIsSpace c)).dropWhile pyIsSpace
    if rest = [] then [tok] else [tok, rest]

/-- Python `s.split(", ")` (used on the `subjectAltName` extension string):
split on every occurrence of the two-character separator `", "`, scanning left
to right. -/
def splitCommaSpace : Str → List Str
  | [] => [[]]
  | ',' :: ' ' :: rest => [] :: splitCommaSpace rest
  | c :: rest =>
    match splitCommaSpace rest with
    | [] => [[c]]
    | t :: ts => (c :: t) :: ts

/-- Python `s.split(":", 1)`: split on the first colon only. -/
def splitColon1 : Str → List Str
  | [] => [[]]
  | ':' :: rest => [[], rest]
  | c :: rest =>
    match splitColon1 rest with
    | [] => [[c]]
    | t :: ts => (c :: t) :: ts

/-- Option alternative written out as a match (used to state "last occurrence
wins" style lemmas). -/
def optOr (a b : Option α) : Option α :=
  match a with
  | some x => some x
  | none => b

/-! ### Ordered dictionaries

`collections.OrderedDict` (and plain `dict`) modelled as association lists:
lookup returns the value of the first entry with the given key (keys are kept
unique by `odInsert`), and assignment to an existing key updates the entry in
place, keeping its position. -/

/-- Dictionary lookup `m[k]` (as an `Option`). -/
def odGet : List (Str × α) → Str → Option α
  | [], _ => none
  | (k, v) :: rest, d => if k = d then some v else odGet rest d

/-- Dictionary assignment `m[k] = v`: update in place if the key is present,
otherwise append a new entry at the end (insertion order). -/
def odInsert (m : List (Str × α)) (k : Str) (v : α) : List (Str × α) :=
  if (odGet m k).isSome then m.map (fun p => if p.1 = k then (k, v) else p)
  else m ++ [(k, v)]

/-! ### `get_all_domains`: parsing the haproxy backend map -/

/-- The loop body of `get_all_domains` over the lines of the backend map:
strip the line, skip it when empty or starting with `#`, otherwise
`domain, backend = line.split(None, 1)` (raising `ValueError` when the line has
no whitespace separator) and `domains[domain] = backend`. -/
def domainsLoop (m : List (Str × Str)) : List Str → Except PyExc (List (Str × Str))
  | [] => .ok m
  | raw :: rest =>
    if strip raw ≠ [] ∧ (strip raw).head? ≠ some '#' then
      match splitNone1 (strip raw) with
      | [domain, backend] => domainsLoop (odInsert m domain backend) rest
      | _ => .error .valueError
    else domainsLoop m rest

/-- `get_all_domains(config)`: read the backend map (`none` models a file that
cannot be opened, in which case `open` raises `OSError`) and build the ordered
mapping from domain names to backend identifiers. -/
def get_all_domains (backend_map : Option (List Str)) :
    Except PyExc (List (Str × Str)) :=
  match backend_map with
  | none => .error .ioError
  | some lines => domainsLoop [] lines

/-! ### `has_valid_cert`, `has_valid_dns_record`, `get_certless_domains` -/

/-- Possible outcomes of `conn.connect(("localhost", 443))` on the wrapped SSL
socket: the handshake (with full certificate and hostname validation) succeeds,
it fails with `ssl.SSLError`, or the attempt raises some other exception (for
example `ConnectionRefusedError` when nothing listens on port 443). -/
inductive ConnectResult where
  | success
  | sslError
  | otherError
deriving DecidableEq

/-- `has_valid_cert(config, domain)` as a function of the outcome of the
connection attempt: `return False` under `except ssl.SSLError`, `return True`
in the `else` branch, and any other exception propagates (only `ssl.SSLError`
is caught). -/
def has_valid_cert : ConnectResult → Except PyExc Bool
  | .success => .ok true
  | .sslError => .ok false
  | .otherError => .error .osError

/-- Static per-run configuration (the fields of the parsed arguments that the
modelled functions read). -/
structure Config where
  server_ip : Str
  contact_email : Str
  letsencrypt_use_staging : Bool

/-- The network environment of one run: the DNS resolver
(`socket.gethostbyname`; `none` models `socket.gaierror`) and, per server name,
the outcome of the TLS connection attempt of `has_valid_cert`. -/
structure Net where
  gethostbyname : Str → Option Str
  connect443 : Str → ConnectResult

/-- `has_valid_dns_record(config, domain)`: resolve the domain (a resolution
failure is caught and yields `False`) and compare the address with the
configured server IP. -/
def has_valid_dns_record (config : Config) (net : Net) (domain : Str) : Bool :=
  match net.gethostbyname domain with
  | none => false
  | some domain_ip => domain_ip == config.server_ip

/-- The list-comprehension loop of `get_certless_domains`: keep the domains for
which `has_valid_dns_record(config, domain) and not has_valid_cert(config,
domain)`; `and` short-circuits, so the TLS probe runs only for domains whose
DNS record is valid, and an exception escaping `has_valid_cert` aborts the
whole comprehension. -/
def certlessLoop (config : Config) (net : Net) (acc : List Str) :
    List Str → Except PyExc (List Str)
  | [] => .ok acc
  | domain :: rest =>
    if has_valid_dns_record config net domain then
      match has_valid_cert (net.connect443 domain) with
      | .ok true => certlessLoop config net acc rest
      | .ok false => certlessLoop config net (acc ++ [domain]) rest
      | .error e => .error e
    else certlessLoop config net acc rest

/-- `get_certless_domains(config, all_domains)`: iterate over the keys of the
domain dictionary in insertion order. -/
def get_certless_domains (config : Config) (net : Net)
    (all_domains : List (Str × Str)) : Except PyExc (List Str) :=
  certlessLoop config net [] (all_domains.map Prod.fst)

/-! ### `request_new_certs`: grouping by backend -/

/-- `domains_by_backend.setdefault(backend, []).append(domain)`: append the
domain to the backend's group, creating the group (at the end, in insertion
order) when absent. -/
def addToGroup (groups : List (Str × List Str)) (b : Str) (d : Str) :
    List (Str × List Str) :=
  if (odGet groups b).isSome then
    groups.map (fun p => if p.1 = b then (p.1, p.2 ++ [d]) else p)
  else groups ++ [(b, [d])]

/-- The grouping loop of `request_new_certs`: `backend = all_domains[domain]`
(a missing key would raise `KeyError`) followed by the `setdefault`/`append`
shown above. -/
def groupLoop (all_domains : List (Str × Str))
    (groups : List (Str × List Str)) : List Str → Except PyExc (List (Str × List Str))
  | [] => .ok groups
  | domain :: rest =>
    match odGet all_domains domain with
    | some backend => groupLoop all_domains (addToGroup groups backend domain) rest
    | none => .error .keyError

/-- `request_new_certs(config, all_domains)`: compute the certless domains,
group them by backend, and invoke `request_cert` once per group (in group
insertion order).  Exceptions from the individual `request_cert` calls are
swallowed by the surrounding `try`/`except`, so the returned value is exactly
the list of issuance calls made: one `(backend, domains)` pair per group,
carrying that group's full domain list. -/
def request_new_certs (config : Config) (net : Net)
    (all_domains : List (Str × Str)) : Except PyExc (List (Str × List Str)) :=
  match get_certless_domains config net all_domains with
  | .error e => .error e
  | .ok certless_domains => groupLoop all_domains [] certless_domains

/-! ### `get_dns_names`: name extraction from a certificate -/

/-- An X.509 extension as seen through pyOpenSSL: its short name
(`get_short_name()`) and, for a `subjectAltName` extension, the rendered
string returned by `_subjectAltNameString()` (a `", "`-separated list of
`type:value` components). -/
structure Ext where
  short_name : Str
  san_string : Str
deriving DecidableEq

/-- A parsed certificate as seen through pyOpenSSL: its extension list (in
index order) and the components of its subject
(`cert.get_subject().get_components()`, label/value pairs). -/
structure Cert where
  extensions : List Ext
  subject_components : List (Str × Str)
deriving DecidableEq

/-- The extension scan of `get_dns_names`: return the first extension whose
short name is `subjectAltName`. -/
def findSanExt : List Ext → Option Ext
  | [] => none
  | e :: rest =>
    if e.short_name = "subjectAltName".toList then some e else findSanExt rest

/-- The subject scan of `get_dns_names`: return the value of the first
component labelled `CN`. -/
def findCN : List (Str × Str) → Option Str
  | [] => none
  | (label, value) :: rest =>
    if label = "CN".toList then some value else findCN rest

/-- The component loop of `get_dns_names` over the `", "`-separated components
of the `subjectAltName` string: `name_type, name = component.split(":", 1)`
(raising `ValueError` when a component has no colon) and collect the names of
`DNS`-type components. -/
def sanLoop (acc : List Str) : List Str → Except PyExc (List Str)
  | [] => .ok acc
  | component :: rest =>
    match splitColon1 component with
    | [name_type, name] =>
      if name_type = "DNS".toList then sanLoop (acc ++ [name]) rest
      else sanLoop acc rest
    | _ => .error .valueError

/-- `get_dns_names(cert)`: return the DNS entries of the first
`subjectAltName` extension when one exists; otherwise fall back to the first
`CN` subject component; otherwise raise `ValueError`. -/
def get_dns_names (cert : Cert) : Except PyExc (List Str) :=
  match findSanExt cert.extensions with
  | some ext => sanLoop [] (splitCommaSpace ext.san_string)
  | none =>
    match findCN cert.subject_components with
    | some value => .ok [value]
    | none => .error .valueError

/-! ### `clean_up_certs` -/

/-- One `*.pem` file of the certificate directory as seen by the cleanup scan:
its stem (file name without the `.pem` suffix) and its parsed content.
`content = none` models a file for which `cert_path.read_bytes()` or
`OpenSSL.crypto.load_certificate` raises (unreadable or malformed PEM). -/
structure CertFile where
  stem : Str
  content : Option Cert
deriving DecidableEq

/-- What the body of the `clean_up_certs` loop does with one certificate
file. -/
inductive Decision where
  | skip
  | delete
  | abort (e : PyExc)
deriving DecidableEq

/-- The body of the `clean_up_certs` loop for one file, given the active
domain set and an oracle `delOK` telling whether `remove_cert` succeeds for
this file (its `unlink`/`rename` filesystem calls can raise, and such an
exception is not caught):
* loading the certificate raises for an unreadable/malformed file, and that
  exception is not caught (abort);
* `except ValueError: continue` for `get_dns_names` failures (skip);
* a served name containing `*` means wildcard: `continue` (skip);
* a served-name set disjoint from the active domains means `remove_cert`
  (delete, or abort when the removal raises); otherwise `continue` (skip). -/
def fileDecision (delOK : Str → Bool) (active : List Str) (f : CertFile) :
    Decision :=
  match f.content with
  | none => .abort .opensslError
  | some cert =>
    match get_dns_names cert with
    | .error _ => .skip
    | .ok dns_names =>
      if dns_names.any (fun name => name.contains '*') then .skip
      else if dns_names.all (fun name => !active.contains name) then
        if delOK f.stem then .delete else .abort .osError
      else .skip

/-- The observable outcome of one cleanup pass: the stems of the certificate
files removed (in processing order) and the uncaught exception that aborted
the pass, if any. -/
structure CleanResult where
  removed : List Str
  error : Option PyExc
deriving DecidableEq

/-- `clean_up_certs(config, all_domains)`: process the globbed `*.pem` files
in order; an uncaught exception aborts the pass, leaving the remaining files
unprocessed. -/
def clean_up_certs (delOK : Str → Bool) (active : List Str) :
    List CertFile → CleanResult
  | [] => ⟨[], none⟩
  | f :: rest =>
    match fileDecision delOK active f with
    | .abort e => ⟨[], some e⟩
    | .skip => clean_up_certs delOK active rest
    | .delete =>
      let r := clean_up_certs delOK active rest
      ⟨f.stem :: r.removed, r.error⟩

/-! ### `remove_cert` over an explicit filesystem -/

/-- A `pathlib.Path` as used by `remove_cert`: parent directory, stem, and
suffix (with its leading dot). -/
structure PPath where
  dir : String
  stem : String
  suffix : String
deriving DecidableEq

/-- The fixed renewal-configuration directory. -/
def renewal_dir : String := "/etc/letsencrypt/renewal"

/-- `pathlib.Path("/etc/letsencrypt/renewal", stem + ".conf")`. -/
def renewal_conf (stem : String) : PPath := ⟨renewal_dir, stem, ".conf"⟩

/-- `renewal_config.with_suffix(".disabled")`. -/
def renewal_disabled (stem : String) : PPath := ⟨renewal_dir, stem, ".disabled"⟩

/-- `remove_cert(cert_path)` over the set of existing regular files:
`cert_path.unlink()` (raising when the file does not exist), then, if the
renewal configuration exists as a file, rename it to the `.disabled` variant
(overwriting any existing target, as `os.rename` does on POSIX). -/
def remove_cert (fs : Finset PPath) (cert_path : PPath) :
    Except PyExc (Finset PPath) :=
  if cert_path ∈ fs then
    if renewal_conf cert_path.stem ∈ fs.erase cert_path then
      .ok (insert (renewal_disabled cert_path.stem)
        ((fs.erase cert_path).erase (renewal_conf cert_path.stem)))
    else .ok (fs.erase cert_path)
  else .error .osError

/-! ### `main` -/

/-- The external world of one run: the backend-map file (`none` when it cannot
be opened), the network oracles, the certificate directory contents, and the
per-file success oracle for `remove_cert`. -/
structure World where
  backend_map : Option (List Str)
  net : Net
  cert_files : List CertFile
  delOK : Str → Bool

/-- The observable outcome of one run of `main`: the issuance calls made
(backend and full domain list, one per backend group), the certificate files
removed, and the uncaught exception that terminated the run, if any. -/
structure RunResult where
  issuance_calls : List (Str × List Str)
  removed : List Str
  error : Option PyExc
deriving DecidableEq

/-- `main(args)` after argument parsing: `get_all_domains`, then
`request_new_certs`, then `clean_up_certs`; an uncaught exception aborts the
run at that point. -/
def main (config : Config) (w : World) : RunResult :=
  match get_all_domains w.backend_map with
  | .error e => ⟨[], [], some e⟩
  | .ok all_domains =>
    match request_new_certs config w.net all_domains with
    | .error e => ⟨[], [], some e⟩
    | .ok calls =>
      let r := clean_up_certs w.delOK (all_domains.map Prod.fst) w.cert_files
      ⟨calls, r.removed, r.error⟩

/-! ### Specification-side characterizations

Declarative descriptions used to state the claims; each is compared with the
behaviour of the embedded source functions by the theorems below. -/

/-- The routing-table entry contributed by one line, following the spec's
words: blank lines and lines beginning with `#` are skipped, each remaining
line is split on the first whitespace run into a domain name and a backend
identifier (`none` also covers a malformed remaining line, which contributes
no entry because parsing fails there). -/
def parseEntry (raw : Str) : Option (Str × Str) :=
  if strip raw ≠ [] ∧ (strip raw).head? ≠ some '#' then
    match splitNone1 (strip raw) with
    | [domain, backend] => some (domain, backend)
    | _ => none
  else none

/-- The backend identifier of the last routing-table line whose entry is for
domain `d` ("last occurrence wins"). -/
def lastBackend (lines : List Str) (d : Str) : Option Str :=
  (((lines.filterMap parseEntry).filter
    (fun p => decide (p.1 = d))).getLast?).map Prod.snd

/-- A malformed routing-table line: neither blank nor a comment, but with no
whitespace separator, so that `line.split(None, 1)` yields a single token. -/
def malformedLine (raw : Str) : Bool :=
  decide (strip raw ≠ [] ∧ (strip raw).head? ≠ some '#')
    && decide ((splitNone1 (strip raw)).length ≠ 2)

/-- The full domain list of backend `b`'s issuance group: the certless domains
routed to `b`, in their original order. -/
def backendGroup (all_domains : List (Str × Str)) (certless : List Str)
    (b : Str) : List Str :=
  certless.filter (fun d => decide (odGet all_domains d = some b))

/-- The DNS name contributed by one `type:value` component of a
`subjectAltName` extension string (`none` when the component is not of `DNS`
type, or does not parse). -/
def sanEntry (c : Str) : Option Str :=
  match splitColon1 c with
  | [name_type, name] => if name_type = "DNS".toList then some name else none
  | _ => none

/-- The DNS-type entries of a `subjectAltName` extension string: of its `", "`
separated `type:value` components, the values of those with type `DNS`. -/
def sanDnsEntries (san : Str) : List Str :=
  (splitCommaSpace san).filterMap sanEntry

/-! ### Concrete inputs used by witnesses and counterexamples -/

/-- A certificate serving only `old.example` (a single DNS SAN entry). -/
def certOld : Cert := ⟨[⟨"subjectAltName".toList, "DNS:old.example".toList⟩], []⟩

/-- A certificate serving only `z.example`. -/
def certZ : Cert := ⟨[⟨"subjectAltName".toList, "DNS:z.example".toList⟩], []⟩

/-- A certificate serving only `stale.example`. -/
def certStale : Cert :=
  ⟨[⟨"subjectAltName".toList, "DNS:stale.example".toList⟩], []⟩

/-- A certificate whose `subjectAltName` extension has no DNS-type entry. -/
def certIpOnly : Cert :=
  ⟨[⟨"subjectAltName".toList, "IP Address:10.0.0.1".toList⟩],
   [("CN".toList, "cn.example".toList)]⟩

/-- A certificate with neither a `subjectAltName` extension nor a `CN`. -/
def certNameless : Cert := ⟨[], [("O".toList, "org".toList)]⟩

/-- A concrete configuration. -/
def cfgW : Config := ⟨"9.9.9.9".toList, "ops@example".toList, false⟩

/-- A network where every domain except `b.example` resolves to the configured
server IP (`b.example` resolves elsewhere), and where the live TLS probe
succeeds only for `c.example`. -/
def netW : Net :=
  ⟨fun d => if d = "b.example".toList then some "1.1.1.1".toList
    else some "9.9.9.9".toList,
   fun d => if d = "c.example".toList then .success else .sslError⟩

/-- A network where every domain resolves to the configured server IP and the
live TLS probe succeeds only for `c.example`. -/
def netC4 : Net :=
  ⟨fun _ => some "9.9.9.9".toList,
   fun d => if d = "c.example".toList then .success else .sslError⟩

/-- The routing table of the spec's issuance scenario. -/
def allC4 : List (Str × Str) :=
  [("a.example".toList, "b1".toList), ("b.example".toList, "b1".toList),
   ("c.example".toList, "b2".toList)]

/-- A world whose backend map cannot be opened. -/
def wNoMap : World := ⟨none, netW, [], fun _ => true⟩

/-- A world whose backend map contains a malformed line. -/
def wBadLine : World := ⟨some ["nosep".toList], netW, [], fun _ => true⟩

/-! ## Lemmas about `optOr`, `odGet`, `odInsert`, `addToGroup` -/

theorem optOr_some (x : α) (b : Option α) : optOr (some x) b = some x := rfl

theorem optOr_none (b : Option α) : optOr none b = b := rfl

theorem optOr_none_right (a : Option α) : optOr a none = a := by
  cases a <;> rfl

theorem getLast?_cons_eq (a : α) (l : List α) :
    (a :: l).getLast? = optOr l.getLast? (some a) := by
  induction l generalizing a with
  | nil => rfl
  | cons b l ih =>
    rw [List.getLast?_cons_cons, ih b]
    cases l.getLast? <;> rfl

theorem odGet_cons (k : Str) (v : α) (m : List (Str × α)) (d : Str) :
    odGet ((k, v) :: m) d = if k = d then some v else odGet m d := rfl

theorem odGet_append (m₁ m₂ : List (Str × α)) (d : Str) :
    odGet (m₁ ++ m₂) d = optOr (odGet m₁ d) (odGet m₂ d) := by
  induction m₁ with
  | nil => rfl
  | cons p m₁ ih =>
    obtain ⟨k, v⟩ := p
    rw [List.cons_append, odGet_cons, odGet_cons]
    by_cases h : k = d
    · rw [if_pos h, if_pos h, optOr_some]
    · rw [if_neg h, if_neg h, ih]

theorem odGet_eq_none (g : List (Str × α)) (b : Str) :
    odGet g b = none ↔ b ∉ g.map Prod.fst := by
  induction g with
  | nil => exact iff_of_true rfl (List.not_mem_nil b)
  | cons p g ih =>
    obtain ⟨k, v⟩ := p
    rw [odGet_cons, List.map_cons, List.mem_cons]
    by_cases h : k = b
    · subst h
      rw [if_pos rfl]
      constructor
      · intro hcon
        exact absurd hcon (Option.some_ne_none v)
      · intro hmem
        exact (hmem (Or.inl rfl)).elim
    · rw [if_neg h, ih]
      constructor
      · intro hnot hor
        rcases hor with hbk | hbg
        · exact h hbk.symm
        · exact hnot hbg
      · intro hnot hbg
        exact hnot (Or.inr hbg)

theorem odGet_update_self (m : List (Str × α)) (k : Str) (v : α)
    (h : (odGet m k).isSome) :
    odGet (m.map (fun p => if p.1 = k then (k, v) else p)) k = some v := by
  induction m with
  | nil => exact absurd h Bool.false_ne_true
  | cons p m ih =>
    obtain ⟨k₀, v₀⟩ := p
    rw [List.map_cons]
    show odGet ((if k₀ = k then (k, v) else (k₀, v₀)) :: _) k = some v
    by_cases hk : k₀ = k
    · rw [if_pos hk, odGet_cons, if_pos rfl]
    · rw [if_neg hk, odGet_cons, if_neg hk]
      rw [odGet_cons, if_neg hk] at h
      exact ih h

theorem odGet_update_other (m : List (Str × α)) (k : Str) (v : α) (d : Str)
    (hd : k ≠ d) :
    odGet (m.map (fun p => if p.1 = k then (k, v) else p)) d = odGet m d := by
  induction m with
  | nil => rfl
  | cons p m ih =>
    obtain ⟨k₀, v₀⟩ := p
    rw [List.map_cons]
    show odGet ((if k₀ = k then (k, v) else (k₀, v₀)) :: _) d = _
    by_cases hk : k₀ = k
    · have hk₀d : ¬(k₀ = d) := by rw [hk]; exact hd
      rw [if_pos hk, odGet_cons, if_neg hd, odGet_cons, if_neg hk₀d, ih]
    · rw [if_neg hk, odGet_cons, odGet_cons, ih]

theorem odGet_odInsert (m : List (Str × α)) (k : Str) (v : α) (d : Str) :
    odGet (odInsert m k v) d = if k = d then some v else odGet m d := by
  unfold odInsert
  cases hc : odGet m k with
  | some l =>
    rw [if_pos (show (Option.some l).isSome = true from rfl)]
    by_cases hd : k = d
    · subst hd
      rw [if_pos rfl, odGet_update_self m k v (by rw [hc]; rfl)]
    · rw [if_neg hd, odGet_update_other m k v d hd]
  | none =>
    rw [if_neg (show ¬(Option.none : Option α).isSome = true from
      Bool.false_ne_true)]
    rw [odGet_append, odGet_cons]
    by_cases hd : k = d
    · subst hd
      rw [if_pos rfl, if_pos rfl, hc, optOr_none]
    · rw [if_neg hd, if_neg hd]
      exact optOr_none_right _

theorem odGet_groupUpdate_self (g : List (Str × List Str)) (b d : Str)
    (l : List Str) (h : odGet g b = some l) :
    odGet (g.map (fun p => if p.1 = b then (p.1, p.2 ++ [d]) else p)) b
      = some (l ++ [d]) := by
  induction g with
  | nil => exact absurd h (Ne.symm (Option.some_ne_none l))
  | cons p g ih =>
    obtain ⟨k₀, v₀⟩ := p
    rw [List.map_cons]
    show odGet ((if k₀ = b then (k₀, v₀ ++ [d]) else (k₀, v₀)) :: _) b = _
    rw [odGet_cons] at h
    by_cases hk : k₀ = b
    · rw [if_pos hk, odGet_cons, if_pos hk]
      rw [if_pos hk] at h
      cases h
      rfl
    · rw [if_neg hk, odGet_cons, if_neg hk]
      rw [if_neg hk] at h
      exact ih h

theorem odGet_groupUpdate_other (g : List (Str × List Str)) (b d b' : Str)
    (hb : b ≠ b') :
    odGet (g.map (fun p => if p.1 = b then (p.1, p.2 ++ [d]) else p)) b'
      = odGet g b' := by
  induction g with
  | nil => rfl
  | cons p g ih =>
    obtain ⟨k₀, v₀⟩ := p
    rw [List.map_cons]
    show odGet ((if k₀ = b then (k₀, v₀ ++ [d]) else (k₀, v₀)) :: _) b' = _
    by_cases hk : k₀ = b
    · have hkb' : ¬(k₀ = b') := by rw [hk]; exact hb
      rw [if_pos hk, odGet_cons, odGet_cons, if_neg hkb', if_neg hkb', ih]
    · rw [if_neg hk, odGet_cons, odGet_cons, ih]

theorem odGet_addToGroup_self (g : List (Str × List Str)) (b d : Str) :
    odGet (addToGroup g b d) b = some ((odGet g b).getD [] ++ [d]) := by
  unfold addToGroup
  cases hc : odGet g b with
  | some l =>
    rw [if_pos (show (Option.some l).isSome = true from rfl)]
    rw [odGet_groupUpdate_self g b d l hc]
    rfl
  | none =>
    rw [if_neg (show ¬(Option.none : Option (List Str)).isSome = true from
      Bool.false_ne_true)]
    rw [odGet_append, hc, optOr_none, odGet_cons, if_pos rfl]
    rfl

theorem odGet_addToGroup_other (g : List (Str × List Str)) (b d b' : Str)
    (hb : b ≠ b') :
    odGet (addToGroup g b d) b' = odGet g b' := by
  unfold addToGroup
  cases hc : odGet g b with
  | some l =>
    rw [if_pos (show (Option.some l).isSome = true from rfl)]
    exact odGet_groupUpdate_other g b d b' hb
  | none =>
    rw [if_neg (show ¬(Option.none : Option (List Str)).isSome = true from
      Bool.false_ne_true)]
    rw [odGet_append, odGet_cons, if_neg hb]
    exact optOr_none_right _

theorem keys_groupUpdate (g : List (Str × List Str)) (b d : Str) :
    (g.map (fun p => if p.1 = b then (p.1, p.2 ++ [d]) else p)).map Prod.fst
      = g.map Prod.fst := by
  induction g with
  | nil => rfl
  | cons p g ih =>
    obtain ⟨k₀, v₀⟩ := p
    rw [List.map_cons]
    show ((if k₀ = b then (k₀, v₀ ++ [d]) else (k₀, v₀)) :: _).map Prod.fst = _
    by_cases hk : k₀ = b
    · rw [if_pos hk, List.map_cons, List.map_cons, ih]
    · rw [if_neg hk, List.map_cons, List.map_cons, ih]

theorem keys_addToGroup (g : List (Str × List Str)) (b d : Str) :
    (addToGroup g b d).map Prod.fst =
      if (odGet g b).isSome then g.map Prod.fst else g.map Prod.fst ++ [b] := by
  unfold addToGroup
  cases hc : odGet g b with
  | some l =>
    rw [if_pos (show (Option.some l).isSome = true from rfl)]
    rw [if_pos (show (Option.some l).isSome = true from rfl)]
    exact keys_groupUpdate g b d
  | none =>
    rw [if_neg (show ¬(Option.none : Option (List Str)).isSome = true from
      Bool.false_ne_true)]
    rw [if_neg (show ¬(Option.none : Option (List Str)).isSome = true from
      Bool.false_ne_true)]
    rw [List.map_append]
    rfl

theorem nodup_addToGroup (g : List (Str × List Str)) (b d : Str)
    (h : (g.map Prod.fst).Nodup) : ((addToGroup g b d).map Prod.fst).Nodup := by
  rw [keys_addToGroup]
  cases hc : odGet g b with
  | some l =>
    rw [if_pos (show (Option.some l).isSome = true from rfl)]
    exact h
  | none =>
    rw [if_neg (show ¬(Option.none : Option (List Str)).isSome = true from
      Bool.false_ne_true)]
    have hb : b ∉ g.map Prod.fst := (odGet_eq_none g b).mp hc
    refine h.append (List.nodup_singleton b) ?_
    intro a ha hab
    rw [List.mem_singleton] at hab
    subst hab
    exact hb ha

theorem odGet_some_iff_mem (g : List (Str × α)) (hnd : (g.map Prod.fst).Nodup)
    (b : Str) (l : α) : (b, l) ∈ g ↔ odGet g b = some l := by
  induction g with
  | nil =>
    constructor
    · intro h
      exact (List.not_mem_nil _ h).elim
    · intro h
      exact absurd h (Ne.symm (Option.some_ne_none l))
  | cons p g ih =>
    obtain ⟨k₀, v₀⟩ := p
    simp only [List.map_cons, List.nodup_cons] at hnd
    obtain ⟨hk₀, hg⟩ := hnd
    rw [odGet_cons, List.mem_cons]
    by_cases hk : k₀ = b
    · subst hk
      rw [if_pos rfl]
      constructor
      · rintro (h | h)
        · have hv : l = v₀ := congrArg Prod.snd h
          rw [hv]
        · exact absurd (List.mem_map_of_mem Prod.fst h) hk₀
      · intro h
        rw [Option.some.injEq] at h
        subst h
        exact Or.inl rfl
    · rw [if_neg hk, ← ih hg]
      constructor
      · rintro (h | h)
        · exact absurd (congrArg Prod.fst h).symm hk
        · exact h
      · exact Or.inr

/-! ## Lemmas about the routing-table parser -/

theorem optOr_map (a : Option α) (b : Option α) (f : α → β) :
    (optOr a b).map f = optOr (a.map f) (b.map f) := by
  cases a <;> rfl

theorem optOr_assoc (a b c : Option α) :
    optOr (optOr a b) c = optOr a (optOr b c) := by
  cases a <;> rfl

theorem domainsLoop_nil (m : List (Str × Str)) : domainsLoop m [] = .ok m := rfl

theorem domainsLoop_cons_entry (m : List (Str × Str)) (raw : Str)
    (rest : List Str) (domain backend : Str)
    (hc : strip raw ≠ [] ∧ (strip raw).head? ≠ some '#')
    (hs : splitNone1 (strip raw) = [domain, backend]) :
    domainsLoop m (raw :: rest) = domainsLoop (odInsert m domain backend) rest := by
  simp only [domainsLoop]
  rw [if_pos hc, hs]

theorem domainsLoop_cons_skip (m : List (Str × Str)) (raw : Str)
    (rest : List Str)
    (hc : ¬(strip raw ≠ [] ∧ (strip raw).head? ≠ some '#')) :
    domainsLoop m (raw :: rest) = domainsLoop m rest := by
  simp only [domainsLoop]
  rw [if_neg hc]

theorem domainsLoop_cons_malformed (m : List (Str × Str)) (raw : Str)
    (rest : List Str)
    (hc : strip raw ≠ [] ∧ (strip raw).head? ≠ some '#')
    (hs : (splitNone1 (strip raw)).length ≠ 2) :
    domainsLoop m (raw :: rest) = .error .valueError := by
  simp only [domainsLoop]
  rw [if_pos hc]
  cases hsp : splitNone1 (strip raw) with
  | nil => rfl
  | cons a t =>
    cases t with
    | nil => rfl
    | cons b t2 =>
      cases t2 with
      | nil =>
        rw [hsp] at hs
        exact absurd rfl hs
      | cons c t3 => rfl

theorem parseEntry_entry (raw : Str)
    (hc : strip raw ≠ [] ∧ (strip raw).head? ≠ some '#')
    (domain backend : Str)
    (hs : splitNone1 (strip raw) = [domain, backend]) :
    parseEntry raw = some (domain, backend) := by
  simp only [parseEntry]
  rw [if_pos hc, hs]

theorem parseEntry_skip (raw : Str)
    (hc : ¬(strip raw ≠ [] ∧ (strip raw).head? ≠ some '#')) :
    parseEntry raw = none := by
  simp only [parseEntry]
  rw [if_neg hc]

theorem parseEntry_malformed (raw : Str)
    (hc : strip raw ≠ [] ∧ (strip raw).head? ≠ some '#')
    (hs : (splitNone1 (strip raw)).length ≠ 2) :
    parseEntry raw = none := by
  simp only [parseEntry]
  rw [if_pos hc]
  cases hsp : splitNone1 (strip raw) with
  | nil => rfl
  | cons a t =>
    cases t with
    | nil => rfl
    | cons b t2 =>
      cases t2 with
      | nil =>
        rw [hsp] at hs
        exact absurd rfl hs
      | cons c t3 => rfl

theorem lastBackend_nil (d : Str) : lastBackend [] d = none := rfl

theorem lastBackend_cons_none (raw : Str) (lines : List Str) (d : Str)
    (hp : parseEntry raw = none) :
    lastBackend (raw :: lines) d = lastBackend lines d := by
  unfold lastBackend
  rw [List.filterMap_cons, hp]

theorem lastBackend_cons_entry (raw : Str) (lines : List Str) (d d₀ b₀ : Str)
    (hp : parseEntry raw = some (d₀, b₀)) :
    lastBackend (raw :: lines) d
      = optOr (lastBackend lines d) (if d₀ = d then some b₀ else none) := by
  unfold lastBackend
  rw [List.filterMap_cons, hp, List.filter_cons]
  by_cases hd : d₀ = d
  · rw [if_pos (show decide ((d₀, b₀).1 = d) = true from decide_eq_true hd)]
    rw [getLast?_cons_eq, optOr_map, if_pos hd]
    rfl
  · rw [if_neg (show ¬decide ((d₀, b₀).1 = d) = true from by
      rw [decide_eq_false hd]; exact Bool.false_ne_true)]
    rw [if_neg hd, optOr_none_right]

theorem domainsLoop_lookup :
    ∀ (lines : List Str) (m m' : List (Str × Str)),
      domainsLoop m lines = .ok m' →
      ∀ d, odGet m' d = optOr (lastBackend lines d) (odGet m d) := by
  intro lines
  induction lines with
  | nil =>
    intro m m' h d
    rw [domainsLoop_nil] at h
    cases h
    rw [lastBackend_nil, optOr_none]
  | cons raw rest ih =>
    intro m m' h d
    by_cases hc : strip raw ≠ [] ∧ (strip raw).head? ≠ some '#'
    · cases hsp : splitNone1 (strip raw) with
      | nil =>
        rw [domainsLoop_cons_malformed m raw rest hc (by rw [hsp]; intro hh; cases hh)] at h
        cases h
      | cons a t =>
        cases t with
        | nil =>
          rw [domainsLoop_cons_malformed m raw rest hc (by rw [hsp]; intro hh; cases hh)] at h
          cases h
        | cons b t2 =>
          cases t2 with
          | nil =>
            rw [domainsLoop_cons_entry m raw rest a b hc hsp] at h
            have hent : parseEntry raw = some (a, b) := parseEntry_entry raw hc a b hsp
            rw [lastBackend_cons_entry raw rest d a b hent]
            have hite : (if a = d then some b else odGet m d)
                = optOr (if a = d then some b else none) (odGet m d) := by
              by_cases had : a = d
              · rw [if_pos had, if_pos had, optOr_some]
              · rw [if_neg had, if_neg had, optOr_none]
            rw [ih _ _ h d, odGet_odInsert, hite, ← optOr_assoc]
          | cons c t3 =>
            rw [domainsLoop_cons_malformed m raw rest hc (by rw [hsp]; intro hh; cases hh)] at h
            cases h
    · rw [domainsLoop_cons_skip m raw rest hc] at h
      have hp : parseEntry raw = none := parseEntry_skip raw hc
      rw [lastBackend_cons_none raw rest d hp]
      exact ih _ _ h d

theorem domainsLoop_skip_middle (raw : Str)
    (hraw : ¬(strip raw ≠ [] ∧ (strip raw).head? ≠ some '#')) :
    ∀ (pre : List Str) (post : List Str) (m : List (Str × Str)),
      domainsLoop m (pre ++ raw :: post) = domainsLoop m (pre ++ post) := by
  intro pre
  induction pre with
  | nil =>
    intro post m
    rw [List.nil_append, List.nil_append, domainsLoop_cons_skip m raw post hraw]
  | cons p pre ih =>
    intro post m
    rw [List.cons_append, List.cons_append]
    by_cases hc : strip p ≠ [] ∧ (strip p).head? ≠ some '#'
    · cases hsp : splitNone1 (strip p) with
      | nil =>
        rw [domainsLoop_cons_malformed _ p _ hc (by rw [hsp]; intro hh; cases hh),
          domainsLoop_cons_malformed _ p _ hc (by rw [hsp]; intro hh; cases hh)]
      | cons a t =>
        cases t with
        | nil =>
          rw [domainsLoop_cons_malformed _ p _ hc (by rw [hsp]; intro hh; cases hh),
            domainsLoop_cons_malformed _ p _ hc (by rw [hsp]; intro hh; cases hh)]
        | cons b t2 =>
          cases t2 with
          | nil =>
            rw [domainsLoop_cons_entry _ p _ a b hc hsp,
              domainsLoop_cons_entry _ p _ a b hc hsp, ih]
          | cons c t3 =>
            rw [domainsLoop_cons_malformed _ p _ hc (by rw [hsp]; intro hh; cases hh),
              domainsLoop_cons_malformed _ p _ hc (by rw [hsp]; intro hh; cases hh)]
    · rw [domainsLoop_cons_skip _ p _ hc, domainsLoop_cons_skip _ p _ hc, ih]

theorem domainsLoop_malformed_error :
    ∀ (lines : List Str) (m : List (Str × Str)),
      (∃ raw ∈ lines, malformedLine raw = true) →
      domainsLoop m lines = .error .valueError := by
  intro lines
  induction lines with
  | nil =>
    rintro m ⟨raw, hmem, -⟩
    exact (List.not_mem_nil raw hmem).elim
  | cons r rest ih =>
    rintro m ⟨raw, hmem, hmal⟩
    by_cases hc : strip r ≠ [] ∧ (strip r).head? ≠ some '#'
    · by_cases hlen : (splitNone1 (strip r)).length = 2
      · cases hsp : splitNone1 (strip r) with
        | nil => rw [hsp] at hlen; cases hlen
        | cons a t =>
          cases t with
          | nil => rw [hsp] at hlen; cases hlen
          | cons b t2 =>
            cases t2 with
            | nil =>
              rw [domainsLoop_cons_entry m r rest a b hc hsp]
              apply ih
              rcases List.mem_cons.mp hmem with rfl | hr
              · exfalso
                have h2 := (Bool.and_eq_true _ _ |>.mp hmal).2
                rw [decide_eq_true_eq] at h2
                rw [hsp] at h2
                exact h2 rfl
              · exact ⟨raw, hr, hmal⟩
            | cons c t3 => rw [hsp] at hlen; cases hlen
      · exact domainsLoop_cons_malformed m r rest hc hlen
    · rw [domainsLoop_cons_skip m r rest hc]
      apply ih
      rcases List.mem_cons.mp hmem with rfl | hr
      · exfalso
        have h1 := (Bool.and_eq_true _ _ |>.mp hmal).1
        rw [decide_eq_true_eq] at h1
        exact hc h1
      · exact ⟨raw, hr, hmal⟩

/-! ## Lemmas about `get_certless_domains` -/

theorem certlessLoop_cons_skipdns (config : Config) (net : Net) (acc : List Str)
    (d₀ : Str) (rest : List Str)
    (h : has_valid_dns_record config net d₀ = false) :
    certlessLoop config net acc (d₀ :: rest) = certlessLoop config net acc rest := by
  simp only [certlessLoop]
  rw [if_neg (by rw [h]; exact Bool.false_ne_true)]

theorem certlessLoop_cons_valid (config : Config) (net : Net) (acc : List Str)
    (d₀ : Str) (rest : List Str)
    (h : has_valid_dns_record config net d₀ = true)
    (hc : has_valid_cert (net.connect443 d₀) = .ok true) :
    certlessLoop config net acc (d₀ :: rest) = certlessLoop config net acc rest := by
  simp only [certlessLoop]
  rw [if_pos h, hc]

theorem certlessLoop_cons_invalid (config : Config) (net : Net) (acc : List Str)
    (d₀ : Str) (rest : List Str)
    (h : has_valid_dns_record config net d₀ = true)
    (hc : has_valid_cert (net.connect443 d₀) = .ok false) :
    certlessLoop config net acc (d₀ :: rest)
      = certlessLoop config net (acc ++ [d₀]) rest := by
  simp only [certlessLoop]
  rw [if_pos h, hc]

theorem certlessLoop_cons_error (config : Config) (net : Net) (acc : List Str)
    (d₀ : Str) (rest : List Str) (e : PyExc)
    (h : has_valid_dns_record config net d₀ = true)
    (hc : has_valid_cert (net.connect443 d₀) = .error e) :
    certlessLoop config net acc (d₀ :: rest) = .error e := by
  simp only [certlessLoop]
  rw [if_pos h, hc]

theorem certlessLoop_mem (config : Config) (net : Net) :
    ∀ (ds acc res : List Str),
      certlessLoop config net acc ds = .ok res →
      ∀ d, (d ∈ res ↔ d ∈ acc ∨ (d ∈ ds ∧ has_valid_dns_record config net d = true
        ∧ has_valid_cert (net.connect443 d) = .ok false)) := by
  intro ds
  induction ds with
  | nil =>
    intro acc res h d
    cases h
    constructor
    · exact Or.inl
    · rintro (ha | ⟨hmem, -, -⟩)
      · exact ha
      · exact (List.not_mem_nil d hmem).elim
  | cons d₀ rest ih =>
    intro acc res h d
    by_cases hdns : has_valid_dns_record config net d₀ = true
    · cases hv : has_valid_cert (net.connect443 d₀) with
      | ok bv =>
        cases bv with
        | true =>
          rw [certlessLoop_cons_valid config net acc d₀ rest hdns hv] at h
          rw [ih _ _ h d]
          constructor
          · rintro (ha | ⟨hr, hp⟩)
            · exact Or.inl ha
            · exact Or.inr ⟨List.mem_cons_of_mem _ hr, hp⟩
          · rintro (ha | ⟨hcons, hdns', hvc'⟩)
            · exact Or.inl ha
            · rcases List.mem_cons.mp hcons with rfl | hr
              · rw [hv] at hvc'
                exact absurd hvc' (by decide)
              · exact Or.inr ⟨hr, hdns', hvc'⟩
        | false =>
          rw [certlessLoop_cons_invalid config net acc d₀ rest hdns hv] at h
          rw [ih _ _ h d]
          constructor
          · rintro (hacc | ⟨hr, hp⟩)
            · rcases List.mem_append.mp hacc with ha | hone
              · exact Or.inl ha
              · rw [List.mem_singleton] at hone
                subst hone
                exact Or.inr ⟨List.mem_cons_self _ _, hdns, hv⟩
            · exact Or.inr ⟨List.mem_cons_of_mem _ hr, hp⟩
          · rintro (hacc | ⟨hcons, hdns', hvc'⟩)
            · exact Or.inl (List.mem_append.mpr (Or.inl hacc))
            · rcases List.mem_cons.mp hcons with rfl | hr
              · exact Or.inl (List.mem_append.mpr (Or.inr (List.mem_singleton.mpr rfl)))
              · exact Or.inr ⟨hr, hdns', hvc'⟩
      | error e =>
        rw [certlessLoop_cons_error config net acc d₀ rest e hdns hv] at h
        cases h
    · rw [Bool.not_eq_true] at hdns
      rw [certlessLoop_cons_skipdns config net acc d₀ rest hdns] at h
      rw [ih _ _ h d]
      constructor
      · rintro (ha | ⟨hr, hp⟩)
        · exact Or.inl ha
        · exact Or.inr ⟨List.mem_cons_of_mem _ hr, hp⟩
      · rintro (ha | ⟨hcons, hdns', hvc'⟩)
        · exact Or.inl ha
        · rcases List.mem_cons.mp hcons with rfl | hr
          · rw [hdns] at hdns'
            exact absurd hdns' (by decide)
          · exact Or.inr ⟨hr, hdns', hvc'⟩

/-! ## Lemmas about `request_new_certs` grouping -/

theorem groupLoop_nil (all_domains : List (Str × Str))
    (g : List (Str × List Str)) : groupLoop all_domains g [] = .ok g := rfl

theorem groupLoop_cons_some (all_domains : List (Str × Str))
    (g : List (Str × List Str)) (d₀ : Str) (rest : List Str) (bk : Str)
    (h : odGet all_domains d₀ = some bk) :
    groupLoop all_domains g (d₀ :: rest)
      = groupLoop all_domains (addToGroup g bk d₀) rest := by
  simp only [groupLoop]
  rw [h]

theorem groupLoop_cons_none (all_domains : List (Str × Str))
    (g : List (Str × List Str)) (d₀ : Str) (rest : List Str)
    (h : odGet all_domains d₀ = none) :
    groupLoop all_domains g (d₀ :: rest) = .error .keyError := by
  simp only [groupLoop]
  rw [h]

theorem backendGroup_nil (all_domains : List (Str × Str)) (b : Str) :
    backendGroup all_domains [] b = [] := rfl

theorem backendGroup_cons (all_domains : List (Str × Str)) (d₀ : Str)
    (rest : List Str) (b : Str) :
    backendGroup all_domains (d₀ :: rest) b
      = if odGet all_domains d₀ = some b then d₀ :: backendGroup all_domains rest b
        else backendGroup all_domains rest b := by
  unfold backendGroup
  rw [List.filter_cons]
  by_cases h : odGet all_domains d₀ = some b
  · rw [if_pos (decide_eq_true h), if_pos h]
  · rw [if_neg (by rw [decide_eq_false h]; exact Bool.false_ne_true), if_neg h]

theorem groupLoop_lookup (all_domains : List (Str × Str)) :
    ∀ (cs : List Str) (g res : List (Str × List Str)),
      groupLoop all_domains g cs = .ok res →
      ∀ b, odGet res b =
        match odGet g b with
        | some l => some (l ++ backendGroup all_domains cs b)
        | none =>
          if backendGroup all_domains cs b = [] then none
          else some (backendGroup all_domains cs b) := by
  intro cs
  induction cs with
  | nil =>
    intro g res h b
    rw [groupLoop_nil] at h
    cases h
    rw [backendGroup_nil]
    cases hg : odGet g b with
    | none =>
      show (none : Option (List Str))
          = if ([] : List Str) = [] then none else some []
      rw [if_pos rfl]
    | some l =>
      show some l = some (l ++ [])
      rw [List.append_nil]
  | cons d₀ rest ih =>
    intro g res h b
    cases hko : odGet all_domains d₀ with
    | none =>
      rw [groupLoop_cons_none all_domains g d₀ rest hko] at h
      cases h
    | some bk =>
      rw [groupLoop_cons_some all_domains g d₀ rest bk hko] at h
      have hih := ih _ _ h b
      rw [backendGroup_cons, hko]
      by_cases hb : bk = b
      · subst hb
        rw [if_pos rfl]
        rw [odGet_addToGroup_self g bk d₀] at hih
        rw [hih]
        cases hg : odGet g bk with
        | some l =>
          show some ((l ++ [d₀]) ++ backendGroup all_domains rest bk)
              = some (l ++ d₀ :: backendGroup all_domains rest bk)
          rw [List.append_assoc]
          rfl
        | none =>
          show some ((([] : List Str) ++ [d₀]) ++ backendGroup all_domains rest bk)
              = if d₀ :: backendGroup all_domains rest bk = [] then none
                else some (d₀ :: backendGroup all_domains rest bk)
          rw [List.nil_append,
            if_neg (List.cons_ne_nil d₀ (backendGroup all_domains rest bk))]
          rfl
      · rw [if_neg (fun hh : (some bk : Option Str) = some b =>
          hb (Option.some.injEq bk b ▸ hh))]
        rw [odGet_addToGroup_other g bk d₀ b hb] at hih
        exact hih

theorem groupLoop_keys_nodup (all_domains : List (Str × Str)) :
    ∀ (cs : List Str) (g res : List (Str × List Str)),
      groupLoop all_domains g cs = .ok res →
      (g.map Prod.fst).Nodup → (res.map Prod.fst).Nodup := by
  intro cs
  induction cs with
  | nil =>
    intro g res h hg
    rw [groupLoop_nil] at h
    cases h
    exact hg
  | cons d₀ rest ih =>
    intro g res h hg
    cases hko : odGet all_domains d₀ with
    | none =>
      rw [groupLoop_cons_none all_domains g d₀ rest hko] at h
      cases h
    | some bk =>
      rw [groupLoop_cons_some all_domains g d₀ rest bk hko] at h
      exact ih _ _ h (nodup_addToGroup g bk d₀ hg)

/-! ## Lemmas about `clean_up_certs` -/

theorem fileDecision_malformed (delOK : Str → Bool) (active : List Str)
    (s : Str) : fileDecision delOK active ⟨s, none⟩ = .abort .opensslError := rfl

theorem fileDecision_some (delOK : Str → Bool) (active : List Str) (s : Str)
    (cert : Cert) :
    fileDecision delOK active ⟨s, some cert⟩ =
      match get_dns_names cert with
      | .error _ => .skip
      | .ok dns_names =>
        if dns_names.any (fun name => name.contains '*') then .skip
        else if dns_names.all (fun name => !active.contains name) then
          if delOK s then .delete else .abort .osError
        else .skip := rfl

theorem fileDecision_parse_error (delOK : Str → Bool) (active : List Str)
    (s : Str) (cert : Cert) (e : PyExc) (h : get_dns_names cert = .error e) :
    fileDecision delOK active ⟨s, some cert⟩ = .skip := by
  rw [fileDecision_some, h]

theorem fileDecision_ok (delOK : Str → Bool) (active : List Str) (s : Str)
    (cert : Cert) (names : List Str) (h : get_dns_names cert = .ok names) :
    fileDecision delOK active ⟨s, some cert⟩ =
      (if names.any (fun name => name.contains '*') then .skip
       else if names.all (fun name => !active.contains name) then
         (if delOK s then Decision.delete else .abort .osError)
       else .skip) := by
  rw [fileDecision_some, h]

theorem clean_up_nil (delOK : Str → Bool) (active : List Str) :
    clean_up_certs delOK active [] = ⟨[], none⟩ := rfl

theorem clean_up_cons_skip (delOK : Str → Bool) (active : List Str)
    (f : CertFile) (rest : List CertFile)
    (h : fileDecision delOK active f = .skip) :
    clean_up_certs delOK active (f :: rest) = clean_up_certs delOK active rest := by
  simp only [clean_up_certs]
  rw [h]

theorem clean_up_cons_delete (delOK : Str → Bool) (active : List Str)
    (f : CertFile) (rest : List CertFile)
    (h : fileDecision delOK active f = .delete) :
    clean_up_certs delOK active (f :: rest)
      = ⟨f.stem :: (clean_up_certs delOK active rest).removed,
         (clean_up_certs delOK active rest).error⟩ := by
  simp only [clean_up_certs]
  rw [h]

theorem clean_up_cons_abort (delOK : Str → Bool) (active : List Str)
    (f : CertFile) (rest : List CertFile) (e : PyExc)
    (h : fileDecision delOK active f = .abort e) :
    clean_up_certs delOK active (f :: rest) = ⟨[], some e⟩ := by
  simp only [clean_up_certs]
  rw [h]

theorem clean_up_removed_sound (delOK : Str → Bool) (active : List Str) :
    ∀ (files : List CertFile) (s : Str),
      s ∈ (clean_up_certs delOK active files).removed →
      ∃ f ∈ files, f.stem = s ∧ fileDecision delOK active f = .delete := by
  intro files
  induction files with
  | nil =>
    intro s h
    exact absurd h (List.not_mem_nil s)
  | cons f rest ih =>
    intro s h
    cases hd : fileDecision delOK active f with
    | abort e =>
      rw [clean_up_cons_abort delOK active f rest e hd] at h
      exact absurd h (List.not_mem_nil s)
    | skip =>
      rw [clean_up_cons_skip delOK active f rest hd] at h
      obtain ⟨f', hf', hs, hdec⟩ := ih s h
      exact ⟨f', List.mem_cons_of_mem _ hf', hs, hdec⟩
    | delete =>
      rw [clean_up_cons_delete delOK active f rest hd] at h
      rcases List.mem_cons.mp h with rfl | hr
      · exact ⟨f, List.mem_cons_self _ _, rfl, hd⟩
      · obtain ⟨f', hf', hs, hdec⟩ := ih s hr
        exact ⟨f', List.mem_cons_of_mem _ hf', hs, hdec⟩

theorem clean_up_error_none (delOK : Str → Bool) (active : List Str) :
    ∀ (files : List CertFile),
      (clean_up_certs delOK active files).error = none →
      ∀ f ∈ files, ∀ e, fileDecision delOK active f ≠ .abort e := by
  intro files
  induction files with
  | nil =>
    intro _ f hf
    exact (List.not_mem_nil f hf).elim
  | cons f₀ rest ih =>
    intro herr f hf e hdec
    cases hd : fileDecision delOK active f₀ with
    | abort e₀ =>
      rw [clean_up_cons_abort delOK active f₀ rest e₀ hd] at herr
      cases herr
    | skip =>
      rw [clean_up_cons_skip delOK active f₀ rest hd] at herr
      rcases List.mem_cons.mp hf with rfl | hr
      · rw [hd] at hdec
        cases hdec
      · exact ih herr f hr e hdec
    | delete =>
      rw [clean_up_cons_delete delOK active f₀ rest hd] at herr
      rcases List.mem_cons.mp hf with rfl | hr
      · rw [hd] at hdec
        cases hdec
      · exact ih herr f hr e hdec

theorem clean_up_removed_complete (delOK : Str → Bool) (active : List Str) :
    ∀ (files : List CertFile),
      (clean_up_certs delOK active files).error = none →
      ∀ f ∈ files, fileDecision delOK active f = .delete →
      f.stem ∈ (clean_up_certs delOK active files).removed := by
  intro files
  induction files with
  | nil =>
    intro _ f hf
    exact (List.not_mem_nil f hf).elim
  | cons f₀ rest ih =>
    intro herr f hf hdel
    cases hd : fileDecision delOK active f₀ with
    | abort e₀ =>
      rw [clean_up_cons_abort delOK active f₀ rest e₀ hd] at herr
      cases herr
    | skip =>
      rw [clean_up_cons_skip delOK active f₀ rest hd] at herr ⊢
      rcases List.mem_cons.mp hf with rfl | hr
      · rw [hd] at hdel
        cases hdel
      · exact ih herr f hr hdel
    | delete =>
      rw [clean_up_cons_delete delOK active f₀ rest hd] at herr ⊢
      rcases List.mem_cons.mp hf with rfl | hr
      · exact List.mem_cons_self _ _
      · exact List.mem_cons_of_mem _ (ih herr f hr hdel)

theorem clean_up_no_abort (delOK : Str → Bool) (active : List Str) :
    ∀ (files : List CertFile),
      (∀ f ∈ files, ∀ e, fileDecision delOK active f ≠ .abort e) →
      clean_up_certs delOK active files =
        ⟨files.filterMap (fun f =>
          if fileDecision delOK active f = .delete then some f.stem else none),
         none⟩ := by
  intro files
  induction files with
  | nil =>
    intro _
    rfl
  | cons f₀ rest ih =>
    intro h
    have hrest : ∀ f ∈ rest, ∀ e, fileDecision delOK active f ≠ .abort e :=
      fun f hf => h f (List.mem_cons_of_mem _ hf)
    cases hd : fileDecision delOK active f₀ with
    | abort e =>
      exact absurd hd (h f₀ (List.mem_cons_self _ _) e)
    | skip =>
      have hne : fileDecision delOK active f₀ ≠ Decision.delete := by
        rw [hd]
        intro hh
        cases hh
      rw [clean_up_cons_skip delOK active f₀ rest hd, ih hrest,
        List.filterMap_cons, if_neg hne]
    | delete =>
      rw [clean_up_cons_delete delOK active f₀ rest hd, ih hrest,
        List.filterMap_cons, if_pos hd]

theorem fileDecision_not_abort (delOK : Str → Bool) (active : List Str)
    (f : CertFile) (hcontent : f.content ≠ none) (hdel : delOK f.stem = true) :
    ∀ e, fileDecision delOK active f ≠ .abort e := by
  intro e
  obtain ⟨s, c⟩ := f
  cases c with
  | none => exact absurd rfl hcontent
  | some cert =>
    cases hn : get_dns_names cert with
    | error e' =>
      rw [fileDecision_parse_error delOK active s cert e' hn]
      intro hh
      cases hh
    | ok names =>
      rw [fileDecision_ok delOK active s cert names hn]
      by_cases hw : names.any (fun name => name.contains '*') = true
      · rw [if_pos hw]
        intro hh
        cases hh
      · rw [if_neg hw]
        by_cases ha : names.all (fun name => !active.contains name) = true
        · rw [if_pos ha, if_pos hdel]
          intro hh
          cases hh
        · rw [if_neg ha]
          intro hh
          cases hh

/-! ## Lemmas about `get_dns_names` -/

theorem get_dns_names_san (cert : Cert) (ext : Ext)
    (h : findSanExt cert.extensions = some ext) :
    get_dns_names cert = sanLoop [] (splitCommaSpace ext.san_string) := by
  unfold get_dns_names
  rw [h]

theorem sanLoop_cons_two (acc : List Str) (c : Str) (rest : List Str)
    (t n : Str) (hsp : splitColon1 c = [t, n]) :
    sanLoop acc (c :: rest)
      = if t = "DNS".toList then sanLoop (acc ++ [n]) rest
        else sanLoop acc rest := by
  simp only [sanLoop]
  rw [hsp]

theorem sanEntry_two (c : Str) (t n : Str) (hsp : splitColon1 c = [t, n]) :
    sanEntry c = if t = "DNS".toList then some n else none := by
  simp only [sanEntry]
  rw [hsp]

theorem sanLoop_ok :
    ∀ (comps : List Str),
      (∀ c ∈ comps, (splitColon1 c).length = 2) →
      ∀ acc, sanLoop acc comps = .ok (acc ++ comps.filterMap sanEntry) := by
  intro comps
  induction comps with
  | nil =>
    intro _ acc
    rw [List.filterMap_nil, List.append_nil]
    rfl
  | cons c rest ih =>
    intro h acc
    have hc := h c (List.mem_cons_self _ _)
    have hrest : ∀ c' ∈ rest, (splitColon1 c').length = 2 :=
      fun c' hc' => h c' (List.mem_cons_of_mem _ hc')
    cases hsp : splitColon1 c with
    | nil =>
      rw [hsp] at hc
      cases hc
    | cons t ts =>
      cases ts with
      | nil =>
        rw [hsp] at hc
        cases hc
      | cons n ts2 =>
        cases ts2 with
        | nil =>
          rw [sanLoop_cons_two acc c rest t n hsp, List.filterMap_cons,
            sanEntry_two c t n hsp]
          by_cases ht : t = "DNS".toList
          · rw [if_pos ht, if_pos ht, ih hrest (acc ++ [n]), List.append_assoc]
            rfl
          · rw [if_neg ht, if_neg ht, ih hrest acc]
        | cons x ts3 =>
          rw [hsp] at hc
          simp only [List.length_cons] at hc
          omega

/-! ## Claim theorems -/

theorem all_not_contains_iff (names active : List Str) :
    (names.all (fun n => !active.contains n) = true) ↔ ∀ n ∈ names, n ∉ active := by
  simp

/-- C2: for every run in which the certless-domain computation completes, a
configured domain is queued for issuance iff it resolves to the configured
server IP and the live certificate check for it fails; in particular a domain
that does not resolve to this server is never queued, even if it has no valid
certificate. -/
theorem C2_queued_iff (config : Config) (net : Net)
    (all_domains : List (Str × Str)) (res : List Str)
    (h : get_certless_domains config net all_domains = .ok res) (d : Str) :
    (d ∈ res ↔ d ∈ all_domains.map Prod.fst
      ∧ has_valid_dns_record config net d = true
      ∧ has_valid_cert (net.connect443 d) = .ok false)
    ∧ (has_valid_dns_record config net d = false → d ∉ res) := by
  have hm := certlessLoop_mem config net (all_domains.map Prod.fst) [] res h d
  constructor
  · rw [hm]
    constructor
    · rintro (hacc | hp)
      · exact (List.not_mem_nil d hacc).elim
      · exact hp
    · exact Or.inr
  · intro hdns hmem
    rcases hm.mp hmem with hacc | ⟨-, hdns', -⟩
    · exact List.not_mem_nil d hacc
    · rw [hdns] at hdns'
      exact absurd hdns' (by decide)

/-- Witness for C2 at a concrete world: `a.example` resolves to the server and
has no valid live certificate, so it is queued; `b.example` resolves elsewhere
and is not queued. -/
theorem C2_witness :
    get_certless_domains cfgW netW allC4 = .ok ["a.example".toList]
    ∧ ("a.example".toList ∈ (["a.example".toList] : List Str) ↔
        "a.example".toList ∈ allC4.map Prod.fst
        ∧ has_valid_dns_record cfgW netW "a.example".toList = true
        ∧ has_valid_cert (netW.connect443 "a.example".toList) = .ok false)
    ∧ ("b.example".toList ∉ (["a.example".toList] : List Str)) := by
  refine ⟨by decide, ?_, ?_⟩
  · exact (C2_queued_iff cfgW netW allC4 ["a.example".toList] (by decide)
      "a.example".toList).1
  · exact (C2_queued_iff cfgW netW allC4 ["a.example".toList] (by decide)
      "b.example".toList).2 (by decide)

/-- C3 counterexample: when the TLS connection attempt fails with a non-SSL
exception (for example `ConnectionRefusedError`), `has_valid_cert` does not
return false — the exception propagates, contradicting the claim that any
handshake or connection failure, including connection refused, yields false
and never an exception. -/
theorem C3_counterexample :
    has_valid_cert ConnectResult.otherError = .error .osError := rfl

/-- C3 (amended): `has_valid_cert` returns true iff the TLS handshake (with
full chain-of-trust and hostname validation) completes, returns false exactly
on a handshake or validation failure raised as `ssl.SSLError`, and propagates
an exception for any non-SSL connection error such as connection refused. -/
theorem C3_outcomes (r : ConnectResult) :
    (has_valid_cert r = .ok true ↔ r = .success)
    ∧ (has_valid_cert r = .ok false ↔ r = .sslError)
    ∧ (has_valid_cert r = .error .osError ↔ r = .otherError) := by
  cases r <;> exact ⟨by decide, by decide, by decide⟩

/-- C5 counterexample: two routing tables whose single malformed lines differ
produce the same error value — the `ValueError` raised by the failed tuple
unpacking is a fixed, generic error that does not identify the offending
line. -/
theorem C5_counterexample :
    get_all_domains (some ["x".toList]) = .error .valueError
    ∧ get_all_domains (some ["y".toList]) = .error .valueError
    ∧ ("x".toList : Str) ≠ "y".toList := by decide

/-- C5 (amended): loading the routing table fails with an uncaught exception
when the file cannot be opened, and with an uncaught generic `ValueError` (not
identifying the offending line) when a line has no whitespace separator; in
both cases the failure is run-fatal and occurs before any issuance call or
certificate deletion. -/
theorem C5_fatal (config : Config) (w : World) :
    (w.backend_map = none → main config w = ⟨[], [], some .ioError⟩)
    ∧ (∀ lines, w.backend_map = some lines →
        (∃ raw ∈ lines, malformedLine raw = true) →
        main config w = ⟨[], [], some .valueError⟩) := by
  constructor
  · intro h
    unfold main
    rw [h]
    rfl
  · intro lines hbm hmal
    unfold main
    rw [hbm]
    have hload : get_all_domains (some lines) = .error .valueError := by
      show domainsLoop [] lines = .error .valueError
      exact domainsLoop_malformed_error lines [] hmal
    rw [hload]

/-- Witness for C5: a world whose backend map cannot be opened aborts with the
open error and no effects, and a world whose backend map has a line with no
whitespace separator aborts with the unpacking error and no effects. -/
theorem C5_witness :
    main cfgW wNoMap = ⟨[], [], some .ioError⟩
    ∧ main cfgW wBadLine = ⟨[], [], some .valueError⟩ := by
  constructor
  · exact (C5_fatal cfgW wNoMap).1 rfl
  · exact (C5_fatal cfgW wBadLine).2 ["nosep".toList] rfl
      ⟨"nosep".toList, by decide, by decide⟩

/-- C7: for every routing table that loads successfully, the resulting mapping
sends each domain to the backend of the last line whose entry is for that
domain (blank and `#` lines skipped, remaining lines split on the first
whitespace run — see `parseEntry`/`lastBackend`), and inserting a blank or
comment line anywhere leaves the result of loading unchanged. -/
theorem C7_parse (lines : List Str) (m : List (Str × Str))
    (h : get_all_domains (some lines) = .ok m) :
    (∀ d, odGet m d = lastBackend lines d)
    ∧ (∀ (pre post : List Str) (raw : Str),
        strip raw = [] ∨ (strip raw).head? = some '#' →
        get_all_domains (some (pre ++ raw :: post))
          = get_all_domains (some (pre ++ post))) := by
  constructor
  · intro d
    have hl := domainsLoop_lookup lines [] m h d
    rw [hl]
    exact optOr_none_right _
  · intro pre post raw hskip
    have hraw : ¬(strip raw ≠ [] ∧ (strip raw).head? ≠ some '#') := by
      rcases hskip with h1 | h2
      · rintro ⟨hne, -⟩
        exact hne h1
      · rintro ⟨-, hne⟩
        exact hne h2
    show domainsLoop [] (pre ++ raw :: post) = domainsLoop [] (pre ++ post)
    exact domainsLoop_skip_middle raw hraw pre post []

/-- Witness for C7: a table with a comment line, a blank line and two lines
for `a.example` loads to a mapping sending `a.example` to the backend of the
last occurrence, `b2`. -/
theorem C7_witness :
    get_all_domains (some ["# c".toList, "".toList, " a.example  b1".toList,
      "a.example b2".toList]) = .ok [("a.example".toList, "b2".toList)]
    ∧ odGet [("a.example".toList, "b2".toList)] "a.example".toList
        = lastBackend ["# c".toList, "".toList, " a.example  b1".toList,
            "a.example b2".toList] "a.example".toList
    ∧ lastBackend ["# c".toList, "".toList, " a.example  b1".toList,
        "a.example b2".toList] "a.example".toList = some "b2".toList := by
  refine ⟨by decide, ?_, by decide⟩
  exact (C7_parse ["# c".toList, "".toList, " a.example  b1".toList,
    "a.example b2".toList] [("a.example".toList, "b2".toList)] (by decide)).1
    "a.example".toList

/-- C4: for every run in which the issuance phase completes, the certless
domains are partitioned by backend identifier and the issuance client is
invoked exactly once per backend group, with that group's full domain list:
the backends of the calls are distinct, every call for backend `b` carries
exactly the nonempty list of certless domains routed to `b`, and every backend
with a nonempty certless group receives exactly that call. -/
theorem C4_grouping (config : Config) (net : Net)
    (all_domains : List (Str × Str)) (certless : List Str)
    (calls : List (Str × List Str))
    (hcert : get_certless_domains config net all_domains = .ok certless)
    (hcalls : request_new_certs config net all_domains = .ok calls) :
    (calls.map Prod.fst).Nodup
    ∧ (∀ b l, (b, l) ∈ calls →
        l = backendGroup all_domains certless b ∧ l ≠ [])
    ∧ (∀ b, backendGroup all_domains certless b ≠ [] →
        (b, backendGroup all_domains certless b) ∈ calls) := by
  have hgl : groupLoop all_domains [] certless = .ok calls := by
    unfold request_new_certs at hcalls
    rw [hcert] at hcalls
    exact hcalls
  have hnd : (calls.map Prod.fst).Nodup :=
    groupLoop_keys_nodup all_domains certless [] calls hgl List.nodup_nil
  have harm : ∀ b, odGet calls b =
      if backendGroup all_domains certless b = [] then none
      else some (backendGroup all_domains certless b) := by
    intro b
    rw [groupLoop_lookup all_domains certless [] calls hgl b]
    rfl
  refine ⟨hnd, ?_, ?_⟩
  · intro b l hmem
    have h1 := (odGet_some_iff_mem calls hnd b l).mp hmem
    rw [harm b] at h1
    by_cases hbg : backendGroup all_domains certless b = []
    · rw [if_pos hbg] at h1
      cases h1
    · rw [if_neg hbg, Option.some.injEq] at h1
      exact ⟨h1.symm, h1 ▸ hbg⟩
  · intro b hbg
    apply (odGet_some_iff_mem calls hnd b _).mpr
    rw [harm b, if_neg hbg]

/-- Witness for C4, the spec's scenario: routing table
`{a.example: b1, b.example: b1, c.example: b2}` with `a.example` and
`b.example` certless and `c.example` covered yields exactly one issuance call,
for `b1` with `[a.example, b.example]`, and none for `b2`. -/
theorem C4_witness :
    request_new_certs cfgW netC4 allC4
      = .ok [("b1".toList, ["a.example".toList, "b.example".toList])]
    ∧ (([("b1".toList, ["a.example".toList, "b.example".toList])].map
        Prod.fst).Nodup
      ∧ (∀ b l, (b, l) ∈ [("b1".toList,
            ["a.example".toList, "b.example".toList])] →
          l = backendGroup allC4 ["a.example".toList, "b.example".toList] b
            ∧ l ≠ [])
      ∧ (∀ b, backendGroup allC4 ["a.example".toList, "b.example".toList] b
            ≠ [] →
          (b, backendGroup allC4 ["a.example".toList, "b.example".toList] b)
            ∈ [("b1".toList, ["a.example".toList, "b.example".toList])]))
    ∧ (∀ l, ("b2".toList, l)
        ∉ [("b1".toList, ["a.example".toList, "b.example".toList])]) := by
  refine ⟨by decide,
    C4_grouping cfgW netC4 allC4 ["a.example".toList, "b.example".toList]
      [("b1".toList, ["a.example".toList, "b.example".toList])]
      (by decide) (by decide), ?_⟩
  intro l hmem
  have h2 := (C4_grouping cfgW netC4 allC4
    ["a.example".toList, "b.example".toList]
    [("b1".toList, ["a.example".toList, "b.example".toList])]
    (by decide) (by decide)).2.1 "b2".toList l hmem
  have hempty : backendGroup allC4 ["a.example".toList, "b.example".toList]
      "b2".toList = [] := by decide
  exact h2.2 (h2.1.trans hempty)

/-- C1 counterexample: a run of the cleanup pass over a directory whose first
file is unreadable aborts before reaching `orphan.pem`, which is a non-wildcard
certificate (serving only `old.example`, which contains no `*`) whose served
names are disjoint from the active set `{a.example}` — yet it is not deleted,
contradicting the claimed "deleted iff non-wildcard and disjoint" for every
run. -/
theorem C1_counterexample :
    get_dns_names certOld = .ok ["old.example".toList]
    ∧ ("old.example".toList).contains '*' = false
    ∧ "old.example".toList ∉ (["a.example".toList] : List Str)
    ∧ "orphan".toList ∉ (clean_up_certs (fun _ => true) ["a.example".toList]
        [⟨"broken".toList, none⟩, ⟨"orphan".toList, some certOld⟩]).removed := by
  decide

/-- C1 (amended): in every run of the cleanup pass that completes without an
uncaught per-file error, a certificate file whose names extract successfully
is deleted iff it is not a wildcard certificate (no served name contains `*`)
and its served names are disjoint from the active domain set; and in every run,
completed or aborted, a wildcard certificate or one whose served names
intersect the active set is never deleted. -/
theorem C1_cleanup (delOK : Str → Bool) (active : List Str)
    (files : List CertFile) (s : Str) (cert : Cert) (names : List Str)
    (hnd : (files.map CertFile.stem).Nodup)
    (hmem : CertFile.mk s (some cert) ∈ files)
    (hnames : get_dns_names cert = .ok names) :
    ((clean_up_certs delOK active files).error = none →
      (s ∈ (clean_up_certs delOK active files).removed ↔
        names.any (fun n => n.contains '*') = false ∧ ∀ n ∈ names, n ∉ active))
    ∧ ((names.any (fun n => n.contains '*') = true ∨ ∃ n ∈ names, n ∈ active) →
      s ∉ (clean_up_certs delOK active files).removed) := by
  have hinj : ∀ f ∈ files, f.stem = s → f = ⟨s, some cert⟩ := by
    intro f hf hstem
    exact List.inj_on_of_nodup_map hnd hf hmem (by rw [hstem])
  constructor
  · intro herr
    constructor
    · intro hrem
      obtain ⟨f, hf, hstem, hdec⟩ := clean_up_removed_sound delOK active files s hrem
      rw [hinj f hf hstem, fileDecision_ok delOK active s cert names hnames] at hdec
      by_cases hw : names.any (fun n => n.contains '*') = true
      · rw [if_pos hw] at hdec
        cases hdec
      · by_cases ha : names.all (fun n => !active.contains n) = true
        · exact ⟨by rwa [Bool.not_eq_true] at hw,
            (all_not_contains_iff names active).mp ha⟩
        · rw [if_neg hw, if_neg ha] at hdec
          cases hdec
    · rintro ⟨hw, ha⟩
      have hdec : fileDecision delOK active ⟨s, some cert⟩ = .delete := by
        rw [fileDecision_ok delOK active s cert names hnames,
          if_neg (by rw [hw]; exact Bool.false_ne_true),
          if_pos ((all_not_contains_iff names active).mpr ha)]
        cases hdel : delOK s with
        | true => rw [if_pos rfl]
        | false =>
          exfalso
          have hna := clean_up_error_none delOK active files herr
            ⟨s, some cert⟩ hmem PyExc.osError
          rw [fileDecision_ok delOK active s cert names hnames,
            if_neg (by rw [hw]; exact Bool.false_ne_true),
            if_pos ((all_not_contains_iff names active).mpr ha), hdel,
            if_neg Bool.false_ne_true] at hna
          exact hna rfl
      exact clean_up_removed_complete delOK active files herr _ hmem hdec
  · intro hbad hrem
    obtain ⟨f, hf, hstem, hdec⟩ := clean_up_removed_sound delOK active files s hrem
    rw [hinj f hf hstem, fileDecision_ok delOK active s cert names hnames] at hdec
    rcases hbad with hw | ⟨n, hn, hna⟩
    · rw [if_pos hw] at hdec
      cases hdec
    · have ha : names.all (fun n => !active.contains n) ≠ true := by
        intro hall
        exact ((all_not_contains_iff names active).mp hall n hn) hna
      by_cases hw : names.any (fun n => n.contains '*') = true
      · rw [if_pos hw] at hdec
        cases hdec
      · rw [if_neg hw, if_neg ha] at hdec
        cases hdec

/-- Witness for C1 at a concrete completed run: a single orphaned certificate
serving only `old.example` against the active set `{a.example}`. -/
theorem C1_witness :
    ((clean_up_certs (fun _ => true) ["a.example".toList]
        [⟨"orphan".toList, some certOld⟩]).error = none →
      ("orphan".toList ∈ (clean_up_certs (fun _ => true) ["a.example".toList]
          [⟨"orphan".toList, some certOld⟩]).removed ↔
        (["old.example".toList] : List Str).any (fun n => n.contains '*') = false
          ∧ ∀ n ∈ (["old.example".toList] : List Str),
              n ∉ (["a.example".toList] : List Str)))
    ∧ (((["old.example".toList] : List Str).any
          (fun n => n.contains '*') = true
        ∨ ∃ n ∈ (["old.example".toList] : List Str),
            n ∈ (["a.example".toList] : List Str)) →
      "orphan".toList ∉ (clean_up_certs (fun _ => true) ["a.example".toList]
          [⟨"orphan".toList, some certOld⟩]).removed) :=
  C1_cleanup (fun _ => true) ["a.example".toList]
    [⟨"orphan".toList, some certOld⟩] "orphan".toList certOld
    ["old.example".toList] (by decide) (by decide) (by decide)

/-- C6 counterexample: an unreadable certificate file aborts the whole cleanup
pass — with `corrupt.pem` first, nothing is removed and the pass ends with an
uncaught error, although the orphaned `stale.pem` would be removed when
processed on its own; this contradicts the claim that a per-file failure only
skips that file and never aborts the pass or affects the remaining files. -/
theorem C6_counterexample :
    clean_up_certs (fun _ => true) []
        [⟨"corrupt".toList, none⟩, ⟨"stale".toList, some certStale⟩]
      = ⟨[], some .opensslError⟩
    ∧ clean_up_certs (fun _ => true) [] [⟨"stale".toList, some certStale⟩]
      = ⟨["stale".toList], none⟩ := by
  decide

/-- C6 (amended): a certificate from which neither SAN nor CN names can be
extracted is skipped — the file is retained and the rest of the pass proceeds
exactly as if the file were absent; but an unreadable or malformed certificate
file aborts the cleanup pass at that file, and so does a filesystem error
while deleting an eligible file. -/
theorem C6_per_file (delOK : Str → Bool) (active : List Str)
    (pre post : List CertFile) (s : Str) (cert : Cert) (e : PyExc)
    (h : get_dns_names cert = .error e) :
    (clean_up_certs delOK active (pre ++ CertFile.mk s (some cert) :: post)
      = clean_up_certs delOK active (pre ++ post))
    ∧ (∀ (s' : Str) (post' : List CertFile),
        clean_up_certs delOK active (⟨s', none⟩ :: post')
          = ⟨[], some .opensslError⟩)
    ∧ (∀ (s' : Str) (cert' : Cert) (names : List Str) (post' : List CertFile),
        get_dns_names cert' = .ok names →
        names.any (fun n => n.contains '*') = false →
        (∀ n ∈ names, n ∉ active) →
        delOK s' = false →
        clean_up_certs delOK active (⟨s', some cert'⟩ :: post')
          = ⟨[], some .osError⟩) := by
  refine ⟨?_, ?_, ?_⟩
  · induction pre with
    | nil =>
      rw [List.nil_append, List.nil_append, clean_up_cons_skip delOK active _
        post (fileDecision_parse_error delOK active s cert e h)]
    | cons f pre ih =>
      rw [List.cons_append, List.cons_append]
      cases hd : fileDecision delOK active f with
      | abort e' =>
        rw [clean_up_cons_abort delOK active f _ e' hd,
          clean_up_cons_abort delOK active f _ e' hd]
      | skip =>
        rw [clean_up_cons_skip delOK active f _ hd,
          clean_up_cons_skip delOK active f _ hd, ih]
      | delete =>
        rw [clean_up_cons_delete delOK active f _ hd,
          clean_up_cons_delete delOK active f _ hd, ih]
  · intro s' post'
    exact clean_up_cons_abort delOK active ⟨s', none⟩ post' _
      (fileDecision_malformed delOK active s')
  · intro s' cert' names post' hn hw ha hdel
    apply clean_up_cons_abort
    rw [fileDecision_ok delOK active s' cert' names hn,
      if_neg (by rw [hw]; exact Bool.false_ne_true),
      if_pos ((all_not_contains_iff names active).mpr ha), hdel,
      if_neg Bool.false_ne_true]

/-- Witness for C6: a nameless certificate is skipped without affecting the
rest of the pass; an unreadable file aborts the pass; an undeletable eligible
file aborts the pass. -/
theorem C6_witness :
    (clean_up_certs (fun _ => false) ["z.example".toList]
        ([] ++ CertFile.mk "noname".toList (some certNameless)
          :: [⟨"zc".toList, some certZ⟩])
      = clean_up_certs (fun _ => false) ["z.example".toList]
          ([] ++ [⟨"zc".toList, some certZ⟩]))
    ∧ (clean_up_certs (fun _ => false) ["z.example".toList]
        [⟨"bad".toList, none⟩] = ⟨[], some .opensslError⟩)
    ∧ (clean_up_certs (fun _ => false) ["z.example".toList]
        [⟨"st".toList, some certStale⟩] = ⟨[], some .osError⟩) := by
  refine ⟨?_, ?_, ?_⟩
  · exact (C6_per_file (fun _ => false) ["z.example".toList] []
      [⟨"zc".toList, some certZ⟩] "noname".toList certNameless
      PyExc.valueError (by decide)).1
  · exact (C6_per_file (fun _ => false) ["z.example".toList] []
      [⟨"zc".toList, some certZ⟩] "noname".toList certNameless
      PyExc.valueError (by decide)).2.1 "bad".toList [⟨"bad".toList, none⟩].tail
  · exact (C6_per_file (fun _ => false) ["z.example".toList] []
      [⟨"zc".toList, some certZ⟩] "noname".toList certNameless
      PyExc.valueError (by decide)).2.2 "st".toList certStale
      ["stale.example".toList] [] (by decide) (by decide) (by decide) rfl

/-- C8 counterexample: with an unreadable file in the directory, the set of
files removed depends on the processing order — `zcert.pem` is removed when it
comes first but not when the unreadable file comes first, although the two
file lists are permutations of each other. -/
theorem C8_counterexample :
    "zcert".toList ∈ (clean_up_certs (fun _ => true) []
        [⟨"zcert".toList, some certZ⟩, ⟨"mangled".toList, none⟩]).removed
    ∧ "zcert".toList ∉ (clean_up_certs (fun _ => true) []
        [⟨"mangled".toList, none⟩, ⟨"zcert".toList, some certZ⟩]).removed
    ∧ ([(⟨"zcert".toList, some certZ⟩ : CertFile), ⟨"mangled".toList, none⟩]).Perm
        [⟨"mangled".toList, none⟩, ⟨"zcert".toList, some certZ⟩] := by
  exact ⟨by decide, by decide, List.Perm.swap _ _ _⟩

/-- C8 (amended): when every certificate file is readable and every deletion
succeeds, processing the certificate files in any order yields the same set of
removed files (and hence of retained files): both passes complete, and their
removed lists are permutations of each other with the same members. -/
theorem C8_order (delOK : Str → Bool) (active : List Str)
    (files₁ files₂ : List CertFile)
    (hperm : files₁.Perm files₂)
    (hvalid : ∀ f ∈ files₁, f.content ≠ none)
    (hdel : ∀ s, delOK s = true) :
    (clean_up_certs delOK active files₁).error = none
    ∧ (clean_up_certs delOK active files₂).error = none
    ∧ (clean_up_certs delOK active files₁).removed.Perm
        (clean_up_certs delOK active files₂).removed
    ∧ ∀ s, (s ∈ (clean_up_certs delOK active files₁).removed ↔
        s ∈ (clean_up_certs delOK active files₂).removed) := by
  have hna₁ : ∀ f ∈ files₁, ∀ e, fileDecision delOK active f ≠ .abort e :=
    fun f hf => fileDecision_not_abort delOK active f (hvalid f hf) (hdel f.stem)
  have hna₂ : ∀ f ∈ files₂, ∀ e, fileDecision delOK active f ≠ .abort e :=
    fun f hf => fileDecision_not_abort delOK active f
      (hvalid f (hperm.mem_iff.mpr hf)) (hdel f.stem)
  rw [clean_up_no_abort delOK active files₁ hna₁,
    clean_up_no_abort delOK active files₂ hna₂]
  have hp := hperm.filterMap (fun f =>
    if fileDecision delOK active f = .delete then some f.stem else none)
  exact ⟨rfl, rfl, hp, fun s => hp.mem_iff⟩

/-- Witness for C8: two orders of the same two readable certificate files
produce the same removed set. -/
theorem C8_witness :
    (clean_up_certs (fun _ => true) []
        [⟨"zc".toList, some certZ⟩, ⟨"st".toList, some certStale⟩]).error = none
    ∧ (clean_up_certs (fun _ => true) []
        [⟨"st".toList, some certStale⟩, ⟨"zc".toList, some certZ⟩]).error = none
    ∧ (clean_up_certs (fun _ => true) []
        [⟨"zc".toList, some certZ⟩, ⟨"st".toList, some certStale⟩]).removed.Perm
        (clean_up_certs (fun _ => true) []
          [⟨"st".toList, some certStale⟩, ⟨"zc".toList, some certZ⟩]).removed := by
  have h := C8_order (fun _ => true) []
    [⟨"zc".toList, some certZ⟩, ⟨"st".toList, some certStale⟩]
    [⟨"st".toList, some certStale⟩, ⟨"zc".toList, some certZ⟩]
    (List.Perm.swap _ _ _) (by decide) (fun _ => rfl)
  exact ⟨h.1, h.2.1, h.2.2.1⟩

/-- C9: for every certificate containing a `subjectAltName` extension (whose
components parse), name extraction returns exactly the DNS-type entries of
that extension, independent of the subject (never falling back to the Common
Name); and when the extension has no DNS-type entry the extracted set is
empty, so the cleanup pass deletes such a (non-wildcard) certificate for every
active domain set. -/
theorem C9_san (exts : List Ext) (subj : List (Str × Str)) (ext : Ext)
    (hfind : findSanExt exts = some ext)
    (hcomp : ∀ c ∈ splitCommaSpace ext.san_string, (splitColon1 c).length = 2) :
    (∀ subj', get_dns_names ⟨exts, subj'⟩ = .ok (sanDnsEntries ext.san_string))
    ∧ (sanDnsEntries ext.san_string = [] →
        ∀ (active : List Str) (s : Str) (files : List CertFile),
          clean_up_certs (fun _ => true) active
              (CertFile.mk s (some ⟨exts, subj⟩) :: files)
            = ⟨s :: (clean_up_certs (fun _ => true) active files).removed,
               (clean_up_certs (fun _ => true) active files).error⟩) := by
  have hnames : ∀ subj',
      get_dns_names ⟨exts, subj'⟩ = .ok (sanDnsEntries ext.san_string) := by
    intro subj'
    rw [get_dns_names_san ⟨exts, subj'⟩ ext hfind,
      sanLoop_ok (splitCommaSpace ext.san_string) hcomp [], List.nil_append]
    rfl
  refine ⟨hnames, ?_⟩
  intro hempty active s files
  apply clean_up_cons_delete
  rw [fileDecision_ok (fun _ => true) active s _ _ (hnames subj), hempty,
    if_neg (by rw [List.any_nil]; exact Bool.false_ne_true),
    if_pos List.all_nil, if_pos rfl]

/-- Witness for C9: a certificate whose SAN extension holds only an IP-address
entry extracts the empty served-name set and is deleted by the cleanup pass
even against a nonempty active set. -/
theorem C9_witness :
    get_dns_names certIpOnly
      = .ok (sanDnsEntries "IP Address:10.0.0.1".toList)
    ∧ sanDnsEntries "IP Address:10.0.0.1".toList = []
    ∧ clean_up_certs (fun _ => true) ["a.example".toList]
        [⟨"iponly".toList, some certIpOnly⟩]
      = ⟨["iponly".toList], none⟩ := by
  have h := C9_san certIpOnly.extensions certIpOnly.subject_components
    ⟨"subjectAltName".toList, "IP Address:10.0.0.1".toList⟩
    (by decide) (by decide)
  refine ⟨h.1 certIpOnly.subject_components, by decide, ?_⟩
  exact h.2 (by decide) ["a.example".toList] "iponly".toList []

/-- C10: removing an existing certificate always unlinks the certificate file;
its renewal descriptor (same stem, `.conf` extension, in the fixed renewal
directory) is renamed to the `.disabled` variant exactly when it exists as a
regular file; and when no such descriptor exists the resulting filesystem is
the old one minus the certificate file — no other file is created, deleted or
modified. -/
theorem C10_remove (fs : Finset PPath) (p : PPath) (h : p ∈ fs) :
    (renewal_conf p.stem ∈ fs.erase p →
      remove_cert fs p = .ok (insert (renewal_disabled p.stem)
        ((fs.erase p).erase (renewal_conf p.stem))))
    ∧ (renewal_conf p.stem ∉ fs.erase p →
      remove_cert fs p = .ok (fs.erase p)
      ∧ p ∉ fs.erase p
      ∧ ∀ q, q ≠ p → (q ∈ fs.erase p ↔ q ∈ fs)) := by
  constructor
  · intro hrc
    unfold remove_cert
    rw [if_pos h, if_pos hrc]
  · intro hrc
    refine ⟨?_, Finset.not_mem_erase p fs, ?_⟩
    · unfold remove_cert
      rw [if_pos h, if_neg hrc]
    · intro q hq
      rw [Finset.mem_erase]
      constructor
      · rintro ⟨-, hqf⟩
        exact hqf
      · intro hqf
        exact ⟨hq, hqf⟩

/-- Witness for C10: removing a certificate with no renewal descriptor leaves
only that file unlinked, and removing one whose descriptor exists renames the
descriptor to its `.disabled` variant. -/
theorem C10_witness :
    remove_cert {(⟨"/etc/haproxy/certs", "old", ".pem"⟩ : PPath)}
        ⟨"/etc/haproxy/certs", "old", ".pem"⟩ = .ok ∅
    ∧ remove_cert {(⟨"/etc/haproxy/certs", "old", ".pem"⟩ : PPath),
          renewal_conf "old"} ⟨"/etc/haproxy/certs", "old", ".pem"⟩
      = .ok {renewal_disabled "old"} := by
  constructor
  · have h := (C10_remove {(⟨"/etc/haproxy/certs", "old", ".pem"⟩ : PPath)}
      ⟨"/etc/haproxy/certs", "old", ".pem"⟩ (by decide)).2 (by decide)
    rw [show ({(⟨"/etc/haproxy/certs", "old", ".pem"⟩ : PPath)} : Finset PPath).erase
        ⟨"/etc/haproxy/certs", "old", ".pem"⟩ = ∅ from by decide] at h
    exact h.1
  · have h := (C10_remove {(⟨"/etc/haproxy/certs", "old", ".pem"⟩ : PPath),
      renewal_conf "old"} ⟨"/etc/haproxy/certs", "old", ".pem"⟩ (by decide)).1
      (by decide)
    rw [show ((({(⟨"/etc/haproxy/certs", "old", ".pem"⟩ : PPath),
        renewal_conf "old"} : Finset PPath).erase
          ⟨"/etc/haproxy/certs", "old", ".pem"⟩).erase (renewal_conf "old"))
        = ∅ from by decide] at h
    rw [show insert (renewal_disabled "old") (∅ : Finset PPath)
        = {renewal_disabled "old"} from rfl] at h
    exact h

end ManageCerts
